import Mathlib

/-!
Shallow embedding of `tag_to_svg.py` (TriOrb-Inc/apriltag-imgs).

Modelling conventions:
* Python strings that the program inspects character by character (the id
  specification and file names) are modelled as `List Char`; emitted SVG text
  is modelled as Lean `String`.
* Python `float` arithmetic is modelled over `ℚ`.  Every layout quantity the
  claims talk about is an exact expression (sums/products of the CLI numbers),
  and no claim depends on IEEE rounding, so the rational model is faithful for
  the properties stated here.  The decimal rendering of numbers inside the SVG
  text is modelled by `ratRepr`; the claims never depend on the exact digits
  produced, only on equal numbers rendering equally (which holds for any
  function).
* `numpy` `uint8` channel values are modelled as `Fin 256`.
* Fallible Python code (int parsing, image decoding, assertions) is modelled
  with `Option`/`Except`; the filesystem is passed in explicitly (`glob`
  result as a list of file names, `os.path.exists` as a boolean predicate,
  `PIL.Image.open`+`np.array` as a decoding function), and the only write the
  program performs is returned as a `(path, contents)` list instead of being
  executed.
-/

/-! ### Python `int(...)` parsing (used by lines 121-126 of the source)

`int(s)` strips whitespace, accepts an optional sign and then a nonempty
sequence of decimal digits in which single underscores may appear between
digits.  (CPython additionally accepts Unicode digits and Unicode whitespace;
the id specifications the claims quantify over are ASCII, and no claim
distinguishes the two behaviours.) -/

def isPySpace (c : Char) : Bool :=
  c.toNat = 32 || c.toNat = 9 || c.toNat = 10 || c.toNat = 13 || c.toNat = 11 || c.toNat = 12

def isDigitC (c : Char) : Bool :=
  48 ≤ c.toNat && c.toNat ≤ 57

def digitVal (c : Char) : ℕ := c.toNat - 48

/-- Value of a decimal digit string, most significant digit first. -/
def digitsVal (ds : List Char) : ℕ :=
  ds.foldl (fun a c => 10 * a + digitVal c) 0

/-- Strip leading and trailing Python whitespace. -/
def stripChars (l : List Char) : List Char :=
  ((l.dropWhile isPySpace).reverse.dropWhile isPySpace).reverse

/-- Digit/underscore scanner of `int`: after each underscore a digit must
follow, every other character must be a digit. -/
def pyDigitsAux (acc : ℕ) : List Char → Option ℕ
  | [] => some acc
  | c :: cs =>
    if c = '_' then
      match cs with
      | [] => none
      | d :: ds => if isDigitC d then pyDigitsAux (10 * acc + digitVal d) ds else none
    else
      if isDigitC c then pyDigitsAux (10 * acc + digitVal c) cs else none

/-- Unsigned digit part of `int(...)`: nonempty and not starting with an
underscore. -/
def pyDigits : List Char → Option ℕ
  | [] => none
  | c :: cs => if c = '_' then none else pyDigitsAux 0 (c :: cs)

/-- Model of Python `int(s)` for a character-list string `s`. -/
def pyIntChars (l : List Char) : Option ℤ :=
  match stripChars l with
  | [] => none
  | c :: rest =>
    if c = '-' then (pyDigits rest).map (fun n => -(n : ℤ))
    else if c = '+' then (pyDigits rest).map (fun n => (n : ℤ))
    else (pyDigits (c :: rest)).map (fun n => (n : ℤ))

/-! ### String splitting (Python `str.split(sep)`) -/

/-- Python `s.split(sep)` for a one-character separator: splits at every
occurrence, keeping empty parts, and yields `[s]` when the separator does not
occur (`"".split(sep) = ['']`). -/
def splitOnChar (sep : Char) : List Char → List (List Char)
  | [] => [[]]
  | c :: cs =>
    match splitOnChar sep cs with
    | [] => [[]]
    | p :: ps => if c = sep then [] :: p :: ps else (c :: p) :: ps

/-- Join parts with a one-character separator (inverse of `splitOnChar`). -/
def joinSep (sep : Char) : List (List Char) → List Char
  | [] => []
  | [p] => p
  | p :: ps => p ++ sep :: joinSep sep ps

/-- Split at the first occurrence of `sep` only: everything before the first
`sep` and everything after it.  This is the reading used by the claim text
for the range branch of the resolver; it is compared against the code's
behaviour, which unpacks a full split into exactly two parts. -/
def splitFirstChar (sep : Char) : List Char → List Char × List Char
  | [] => ([], [])
  | c :: cs =>
    if c = sep then ([], cs)
    else ((c :: (splitFirstChar sep cs).1, (splitFirstChar sep cs).2))

/-- Model of the list comprehension `[int(t) for t in tokens]`: parse left to
right, failing as soon as one token fails. -/
def parseAll : List (List Char) → Option (List ℤ)
  | [] => some []
  | t :: ts =>
    match pyIntChars t with
    | none => none
    | some v =>
      match parseAll ts with
      | none => none
      | some vs => some (v :: vs)

/-- Model of Python `list(range(a, b + 1))`: the integers `a, a+1, ..., b`,
empty when `b < a`. -/
def intRange (a b : ℤ) : List ℤ :=
  (List.range (b + 1 - a).toNat).map (fun k => a + (k : ℤ))

/-! ### The Tag Resolver (source lines 120-126) -/

/-- The id-specification resolver exactly as the source computes it:
a comma selects the list branch; otherwise a hyphen selects the range branch,
where `start, end = s.split('-')` requires the full split to have exactly two
parts; otherwise the single-integer branch.  `none` models the fatal
`ValueError` of `int(...)` or of tuple unpacking. -/
def resolveTagIdsChars (l : List Char) : Option (List ℤ) :=
  if ',' ∈ l then
    parseAll (splitOnChar ',' l)
  else if '-' ∈ l then
    match splitOnChar '-' l with
    | [st, en] =>
      match pyIntChars st with
      | none => none
      | some a =>
        match pyIntChars en with
        | none => none
        | some b => some (intRange a b)
    | _ => none
  else
    (pyIntChars l).map (fun a => [a])

/-- The resolver as the claim words it (same grammar, but the range branch
splits on the FIRST hyphen into `(start, end)`).  Used only to compare the
claim text against the code's resolver. -/
def resolveTagIdsClaimChars (l : List Char) : Option (List ℤ) :=
  if ',' ∈ l then
    parseAll (splitOnChar ',' l)
  else if '-' ∈ l then
    match pyIntChars (splitFirstChar '-' l).1 with
    | none => none
    | some a =>
      match pyIntChars (splitFirstChar '-' l).2 with
      | none => none
      | some b => some (intRange a b)
  else
    (pyIntChars l).map (fun a => [a])

/-- The tokens of an id specification according to the claim grammar: the
comma-separated tokens, or the two sides of the first hyphen, or the whole
string.  Used to state the malformed-token premise of the error claim. -/
def tokensOfSpec (l : List Char) : List (List Char) :=
  if ',' ∈ l then splitOnChar ',' l
  else if '-' ∈ l then [(splitFirstChar '-' l).1, (splitFirstChar '-' l).2]
  else [l]

/-! ### Rasters -/

/-- One RGBA pixel, 8 bits per channel, as decoded by `np.array(PIL image)`. -/
structure RGBA where
  r : Fin 256
  g : Fin 256
  b : Fin 256
  a : Fin 256
deriving DecidableEq

def rgbaZero : RGBA := ⟨0, 0, 0, 0⟩

/-- A decoded raster, `shape = (rows, columns, 4)`: a list of pixel rows. -/
abbrev Raster := List (List RGBA)

/-- First axis length, `tag_image.shape[0]` (the number of pixel rows). -/
def shape0 (img : Raster) : ℕ := img.length

/-- Second axis length, `tag_image.shape[1]` (the number of pixel columns,
read off the first row; `numpy` arrays are rectangular). -/
def shape1 (img : Raster) : ℕ := (img.headD []).length

/-- `tag_image[_y, _x]`. -/
def getPix (img : Raster) (_y _x : ℕ) : RGBA :=
  (img.getD _y []).getD _x rgbaZero

/-- Rectangularity of a raster (every `numpy` array satisfies this). -/
def isRectImg (img : Raster) : Prop :=
  ∀ row ∈ img, row.length = shape1 img

instance (img : Raster) : Decidable (isRectImg img) := by
  unfold isRectImg; infer_instance

/-! ### Number and colour rendering -/

/-- Hexadecimal digit character, lowercase (`0`-`9`, `a`-`f`), for `n < 16`. -/
def hexDigitChar (n : ℕ) : Char :=
  if n < 10 then Char.ofNat (48 + n) else Char.ofNat (87 + n)

/-- Python `f'{v:02x}'` for a `uint8` channel value: exactly two lowercase hex
digits (channel values are below 256, so no further digits arise). -/
def hex2 (v : ℕ) : String :=
  String.mk [hexDigitChar (v / 16), hexDigitChar (v % 16)]

/-- Source line 105: `'#' + ''.join([f'{v:02x}' for v in pixel[:3]])` — the
fill colour uses only the R, G, B channels, never the alpha channel. -/
def rgbHex (p : RGBA) : String :=
  "#" ++ hex2 p.r.val ++ hex2 p.g.val ++ hex2 p.b.val

/-- Lowercase hexadecimal digit predicate. -/
def isHexLowerC (c : Char) : Bool :=
  isDigitC c || (97 ≤ c.toNat && c.toNat ≤ 102)

/-- Fractional digits of `0 ≤ q < 1`, fuel-bounded. -/
def fracDigitsAux : ℕ → ℚ → List Char
  | 0, _ => []
  | fuel + 1, q =>
    if q = 0 then []
    else
      let d := (⌊q * 10⌋).toNat
      hexDigitChar d :: fracDigitsAux fuel (q * 10 - (d : ℚ))

/-- Decimal rendering of a rational, standing in for Python `str(float)`
inside f-strings (`"147.5"`, `"5.0"`, ...).  The claims under verification
never depend on the exact digit string, only on the same number being
rendered identically wherever it is interpolated. -/
def ratRepr (q : ℚ) : String :=
  let aq := if q < 0 then -q else q
  let ip := (⌊aq⌋).toNat
  let fr := fracDigitsAux 30 (aq - (ip : ℚ))
  (if q < 0 then "-" else "") ++ Nat.repr ip ++ "." ++ (if fr = [] then "0" else fr.asString)

/-- Source lines 61-64, the unused-in-output helper `gen_rgba`. -/
def gen_rgba (p : RGBA) : String :=
  "rgba(" ++ Nat.repr p.r.val ++ ", " ++ Nat.repr p.g.val ++ ", " ++
    Nat.repr p.b.val ++ ", " ++ ratRepr ((p.a.val : ℚ) / 255) ++ ")"

/-! ### The SVG Layout Emitter (source lines 81-114) -/

/-- Row of the tag at 0-based index `i`: `row = i // tag_n_cols`. -/
def tagRow (i cols : ℕ) : ℕ := i / cols

/-- Column of the tag at 0-based index `i`: `col = i % tag_n_cols`. -/
def tagCol (i cols : ℕ) : ℕ := i % cols

/-- Source line 98: `x = col * (tag_size + (2*margin)) + margin`. -/
def originX (col : ℕ) (tag_size margin : ℚ) : ℚ :=
  (col : ℚ) * (tag_size + 2 * margin) + margin

/-- Source line 99: `y = row * (tag_size + (2*margin)) + margin`. -/
def originY (row : ℕ) (tag_size margin : ℚ) : ℚ :=
  (row : ℚ) * (tag_size + 2 * margin) + margin

/-- Source line 100, first component: `pix_height = tag_size / shape[0]`. -/
def pixHeightOf (tag_size : ℚ) (img : Raster) : ℚ :=
  tag_size / (shape0 img : ℚ)

/-- Source line 100, second component: `pix_width = tag_size / shape[1]`. -/
def pixWidthOf (tag_size : ℚ) (img : Raster) : ℚ :=
  tag_size / (shape1 img : ℚ)

/-- Opening fragment of a per-pixel rectangle: tab, then the `width` and
`height` attributes (always the per-pixel scale factors), up to the opening
quote of the `x` attribute. -/
def rectHead (pix_width pix_height : ℚ) : String :=
  "\t<rect width=\"" ++ ratRepr pix_width ++ "\" height=\"" ++ ratRepr pix_height ++ "\" x=\""

/-- Remainder of a per-pixel rectangle element after `rectHead`. -/
def pixelRectTail (tag_name : String) (x y pix_width pix_height : ℚ)
    (_x _y : ℕ) (px : RGBA) : String :=
  ratRepr (x + (_x : ℚ) * pix_width) ++ "\" y=\"" ++ ratRepr (y + (_y : ℚ) * pix_height) ++
    "\" id=\"" ++ tag_name ++ "-" ++ Nat.repr _x ++ "-" ++ Nat.repr _y ++
    "\" style=\"fill:" ++ rgbHex px ++ ";stroke:#000000;stroke-width:0.0\"/>\n"

/-- One per-pixel `<rect .../>` element, source line 107 (line 104 also binds
the unused `_rgba = gen_rgba(...)`, reproduced here as a dead binding). -/
def pixelRect (tag_name : String) (x y pix_width pix_height : ℚ)
    (_x _y : ℕ) (px : RGBA) : String :=
  let _rgba := gen_rgba px
  rectHead pix_width pix_height ++ pixelRectTail tag_name x y pix_width pix_height _x _y px

/-- The per-pixel rectangles of one tag, in the source's loop order:
`for _y in range(shape[0]): for _x in range(shape[1]): ...`. -/
def tagPixelRects (tag_name : String) (x y tag_size : ℚ) (img : Raster) : List String :=
  (List.range (shape0 img)).flatMap (fun _y =>
    (List.range (shape1 img)).map (fun _x =>
      pixelRect tag_name x y (pixWidthOf tag_size img) (pixHeightOf tag_size img)
        _x _y (getPix img _y _x)))

/-- Source line 109: the text label under the tag. -/
def labelText (tag_name : String) (x y tag_size margin : ℚ) : String :=
  "\t<text x=\"" ++ ratRepr (x + tag_size / 2) ++ "\" y=\"" ++
    ratRepr (y + tag_size + 0.8 * margin) ++ "\" font-size=\"" ++ ratRepr (margin * 0.8) ++
    "\" font-family=\"monospace\" text-anchor=\"middle\" fill=\"#5EEF5E\">" ++
    tag_name ++ "</text>\n"

/-- Source line 111: the grey border rectangle around the tag's margin box. -/
def borderRect (x y tag_size margin : ℚ) : String :=
  "\t<rect width=\"" ++ ratRepr (tag_size + margin + margin) ++ "\" height=\"" ++
    ratRepr (tag_size + margin + margin) ++ "\" x=\"" ++ ratRepr (x - margin) ++
    "\" y=\"" ++ ratRepr (y - margin) ++ "\" fill=\"none\" stroke=\"#888888\" stroke-width=\"1\"/>\n"

/-- Everything emitted for the tag at index `i`: per-pixel rectangles, label,
border (source lines 95-111). -/
def tagGroup (tag_name : String) (tag_image : Raster) (i : ℕ)
    (tag_size margin : ℚ) (cols : ℕ) : String :=
  let x := originX (tagCol i cols) tag_size margin
  let y := originY (tagRow i cols) tag_size margin
  String.join (tagPixelRects tag_name x y tag_size tag_image) ++
    labelText tag_name x y tag_size margin ++
    borderRect x y tag_size margin

/-- Source line 83: `tag_n_rows = math.ceil(len(tag_images) / cols)` (exact
rational division under the ceiling; CPython computes it in `float`). -/
def tagRowsOf (n cols : ℕ) : ℤ := ⌈(n : ℚ) / (cols : ℚ)⌉

/-- Source line 84: `svg_width = (tag_size + (2*margin)) * cols + margin`. -/
def svgWidth (tag_size margin : ℚ) (cols : ℕ) : ℚ :=
  (tag_size + 2 * margin) * (cols : ℚ) + margin

/-- Source line 85: `svg_height = (tag_size + (2*margin)) * tag_n_rows + margin`. -/
def svgHeight (tag_size margin : ℚ) (n cols : ℕ) : ℚ :=
  (tag_size + 2 * margin) * ((tagRowsOf n cols : ℤ) : ℚ) + margin

/-- The root `<svg ...>` open tag, source line 94: millimeter width/height and
a viewBox carrying the same two numbers. -/
def svgOpenTag (w h : ℚ) : String :=
  "<svg width=\"" ++ ratRepr w ++ "mm\" height=\"" ++ ratRepr h ++ "mm\" viewBox=\"0,0," ++
    ratRepr w ++ "," ++ ratRepr h ++ "\" xmlns=\"http://www.w3.org/2000/svg\">\n"

/-- XML declaration (source line 93) followed by the root open tag. -/
def svgHeader (w h : ℚ) : String :=
  "<?xml version=\"1.0\" standalone=\"yes\"?>\n" ++ svgOpenTag w h

/-- All tag groups in collection order (source lines 95-111). -/
def svgBody (tag_images : List (String × Raster)) (tag_size margin : ℚ) (cols : ℕ) : String :=
  String.join (tag_images.enum.map (fun p => tagGroup p.2.1 p.2.2 p.1 tag_size margin cols))

/-- Source lines 81-114, `gen_apriltags_svg`: the complete SVG document for an
insertion-ordered tag collection.  (The `print` calls of the source only log
to the console and do not affect the returned string.) -/
def gen_apriltags_svg (tag_images : List (String × Raster))
    (tag_size margin : ℚ) (cols : ℕ) : String :=
  svgHeader (svgWidth tag_size margin cols) (svgHeight tag_size margin tag_images.length cols) ++
    svgBody tag_images tag_size margin cols ++ "</svg>\n"

/-! ### The collection-building loop and `main` (source lines 116-148) -/

/-- Python `f'{i:05d}'`: decimal, zero-padded to a total width of 5 (the sign
occupies one position for negative values). -/
def pyFormat05d (i : ℤ) : List Char :=
  if i < 0 then
    '-' :: (List.replicate (4 - (Nat.repr i.natAbs).length) '0' ++ (Nat.repr i.natAbs).data)
  else
    List.replicate (5 - (Nat.repr i.natAbs).length) '0' ++ (Nat.repr i.natAbs).data

/-- The suffix `f'_{tag_id:05d}.png'` matched against candidate file names. -/
def tagSuffix (id : ℤ) : List Char :=
  '_' :: (pyFormat05d id ++ ".png".data)

/-- Source line 130: the candidate files for one id, in listing order. -/
def matchesFor (tagAll : List (List Char)) (id : ℤ) : List (List Char) :=
  tagAll.filter (fun f => (tagSuffix id).isSuffixOf f)

/-- `os.path.basename`: the part after the last slash. -/
def basenameChars (l : List Char) : List Char :=
  (splitOnChar '/' l).getLastD []

/-- Source line 135: `os.path.basename(tag_file).split('.')[0]`. -/
def tagNameOf (f : List Char) : String :=
  ((splitOnChar '.' (basenameChars f)).headD []).asString

/-- Insertion-ordered Python `dict` update `d[k] = v`: an existing key keeps
its position and gets the new value, a new key is appended. -/
def dictInsert (k : String) (v : Raster) : List (String × Raster) → List (String × Raster)
  | [] => [(k, v)]
  | (k', v') :: rest => if k' = k then (k', v) :: rest else (k', v') :: dictInsert k v rest

/-- The fatal error classes of a run. -/
inductive PyError where
  | valueError
  | decodeError
  | assertionError
deriving DecidableEq

/-- Source lines 128-140: build the `tag_images` dict.  Ids without a matching
file (or whose file fails the `os.path.exists` re-check) are skipped with a
printed message; an undecodable file is a fatal error. -/
def buildTagImages (tagAll : List (List Char)) (fileExists : List Char → Bool)
    (decode : List Char → Option Raster) (dict : List (String × Raster)) :
    List ℤ → Except PyError (List (String × Raster))
  | [] => .ok dict
  | tag_id :: rest =>
    match matchesFor tagAll tag_id with
    | [] => buildTagImages tagAll fileExists decode dict rest
    | tag_file :: _ =>
      if fileExists tag_file = false then
        buildTagImages tagAll fileExists decode dict rest
      else
        match decode tag_file with
        | none => .error .decodeError
        | some img =>
          buildTagImages tagAll fileExists decode (dictInsert (tagNameOf tag_file) img dict) rest

/-- Source lines 116-148, `main`, as a function of the explicit environment:
`tagAll` is the `glob` listing for the family directory, `fileExists` models
`os.path.exists`, `decode` models `Image.open` + `np.array`.  The result is
either a fatal error, or the list of file writes the run performs (exactly
one: the output path with the generated SVG). -/
def pyMainChars (tagAll : List (List Char)) (fileExists : List Char → Bool)
    (decode : List Char → Option Raster) (tag_id : List Char)
    (tag_size margin : ℚ) (cols : ℕ) (out_file : String) :
    Except PyError (List (String × String)) :=
  match resolveTagIdsChars tag_id with
  | none => .error .valueError
  | some tag_ids =>
    match buildTagImages tagAll fileExists decode [] tag_ids with
    | .error e => .error e
    | .ok tag_images =>
      let apriltags_svg : Option String :=
        some (gen_apriltags_svg tag_images tag_size margin cols)
      match apriltags_svg with
      | none => .error .assertionError
      | some svg => .ok [(out_file, svg)]

/-! ### Measurement helpers for stating the claims -/

/-- The requested ids that have at least one matching file. -/
def foundIds (tagAll : List (List Char)) (ids : List ℤ) : List ℤ :=
  ids.filter (fun id => !(matchesFor tagAll id).isEmpty)

/-- The number of requested ids with no matching file. -/
def missingCount (tagAll : List (List Char)) (ids : List ℤ) : ℕ :=
  (ids.filter (fun id => (matchesFor tagAll id).isEmpty)).length

/-- Display name a found id resolves to (name of its first matching file). -/
def foundName (tagAll : List (List Char)) (id : ℤ) : String :=
  tagNameOf ((matchesFor tagAll id).headD [])

/-- Size of the collection a build step produced (0 for a fatal error). -/
def builtSize : Except PyError (List (String × Raster)) → ℕ
  | .ok d => d.length
  | .error _ => 0

/-- Whether a run result is the failure of the `assert` on line 143. -/
def isAssertionError : Except PyError (List (String × String)) → Bool
  | .error .assertionError => true
  | _ => false

/-- Concrete pixels and rasters used by witnesses and counterexamples. -/
def samplePixel : RGBA := ⟨10, 20, 30, 40⟩

def samplePixel2 : RGBA := ⟨10, 20, 30, 200⟩

def sampleRaster : Raster := [[samplePixel, samplePixel2]]

def cexFile : List Char := ['a', '_', '0', '0', '0', '0', '3', '.', 'p', 'n', 'g']

def cexRaster : Raster := [[rgbaZero]]

def wFileA : List Char := ['a', '_', '0', '0', '0', '0', '1', '.', 'p', 'n', 'g']

def wFileB : List Char := ['b', '_', '0', '0', '0', '0', '2', '.', 'p', 'n', 'g']

/-! ## Helper lemmas -/

theorem dropWhile_eq_self_of_no_sat {p : Char → Bool} :
    ∀ l : List Char, (∀ c ∈ l, p c = false) → l.dropWhile p = l := by
  intro l h
  cases l with
  | nil => rfl
  | cons a l =>
    have ha : p a = false := h a (List.mem_cons_self _ _)
    simp [List.dropWhile_cons, ha]

theorem stripChars_of_no_space (l : List Char) (h : ∀ c ∈ l, isPySpace c = false) :
    stripChars l = l := by
  unfold stripChars
  rw [dropWhile_eq_self_of_no_sat l h,
    dropWhile_eq_self_of_no_sat l.reverse (fun c hc => h c (List.mem_reverse.mp hc)),
    List.reverse_reverse]

theorem isDigitC_bounds {c : Char} (h : isDigitC c = true) :
    48 ≤ c.toNat ∧ c.toNat ≤ 57 := by
  simpa [isDigitC] using h

theorem isPySpace_of_digit {c : Char} (h : isDigitC c = true) : isPySpace c = false := by
  obtain ⟨h1, h2⟩ := isDigitC_bounds h
  simp only [isPySpace]
  simp only [Bool.or_eq_false_iff, decide_eq_false_iff_not]
  omega

theorem digit_toNat_ne {c : Char} (h : isDigitC c = true) {n : ℕ}
    (hn : n < 48 ∨ 57 < n) : c.toNat ≠ n := by
  obtain ⟨h1, h2⟩ := isDigitC_bounds h
  omega

theorem digit_ne_char {c d : Char} (h : isDigitC c = true)
    (hd : d.toNat < 48 ∨ 57 < d.toNat) : c ≠ d := by
  intro hcd
  exact digit_toNat_ne h hd (congrArg Char.toNat hcd)

theorem pyDigitsAux_digits :
    ∀ (ds : List Char) (acc : ℕ), (∀ c ∈ ds, isDigitC c = true) →
      pyDigitsAux acc ds = some (ds.foldl (fun a c => 10 * a + digitVal c) acc) := by
  intro ds
  induction ds with
  | nil => intro acc _; rfl
  | cons c cs ih =>
    intro acc h
    have hc : isDigitC c = true := h c (List.mem_cons_self _ _)
    have hne : c ≠ '_' := digit_ne_char hc (by right; decide)
    unfold pyDigitsAux
    rw [if_neg hne, if_pos hc, List.foldl_cons]
    exact ih _ (fun d hd => h d (List.mem_cons_of_mem _ hd))

theorem pyDigits_digits (ds : List Char) (hne : ds ≠ [])
    (h : ∀ c ∈ ds, isDigitC c = true) : pyDigits ds = some (digitsVal ds) := by
  cases ds with
  | nil => exact absurd rfl hne
  | cons c cs =>
    have hc : isDigitC c = true := h c (List.mem_cons_self _ _)
    have hu : c ≠ '_' := digit_ne_char hc (by right; decide)
    show (if c = '_' then none else pyDigitsAux 0 (c :: cs)) = some (digitsVal (c :: cs))
    rw [if_neg hu]
    exact pyDigitsAux_digits (c :: cs) 0 h

theorem pyIntChars_digits (ds : List Char) (hne : ds ≠ [])
    (h : ∀ c ∈ ds, isDigitC c = true) :
    pyIntChars ds = some ((digitsVal ds : ℕ) : ℤ) := by
  have hnos : ∀ c ∈ ds, isPySpace c = false := fun c hc => isPySpace_of_digit (h c hc)
  unfold pyIntChars
  rw [stripChars_of_no_space ds hnos]
  cases ds with
  | nil => exact absurd rfl hne
  | cons c cs =>
    have hc : isDigitC c = true := h c (List.mem_cons_self _ _)
    have hm : c ≠ '-' := digit_ne_char hc (by left; decide)
    have hp : c ≠ '+' := digit_ne_char hc (by left; decide)
    show (if c = '-' then (pyDigits cs).map (fun n => -(n : ℤ))
        else if c = '+' then (pyDigits cs).map (fun n => (n : ℤ))
        else (pyDigits (c :: cs)).map (fun n => (n : ℤ))) = some ((digitsVal (c :: cs) : ℕ) : ℤ)
    rw [if_neg hm, if_neg hp, pyDigits_digits (c :: cs) (by simp) h]
    rfl

theorem parseAll_some {g : List Char → ℤ} :
    ∀ parts : List (List Char), (∀ p ∈ parts, pyIntChars p = some (g p)) →
      parseAll parts = some (parts.map g) := by
  intro parts
  induction parts with
  | nil => intro _; rfl
  | cons p ps ih =>
    intro h
    unfold parseAll
    rw [h p (List.mem_cons_self _ _), ih (fun q hq => h q (List.mem_cons_of_mem _ hq))]
    rfl

theorem parseAll_none {t : List Char} :
    ∀ parts : List (List Char), t ∈ parts → pyIntChars t = none →
      parseAll parts = none := by
  intro parts
  induction parts with
  | nil => intro h _; exact absurd h (List.not_mem_nil t)
  | cons p ps ih =>
    intro hmem ht
    unfold parseAll
    rcases List.mem_cons.mp hmem with h | h
    · rw [← h, ht]
    · rw [ih h ht]
      cases pyIntChars p <;> rfl

theorem splitOnChar_ne_nil (sep : Char) : ∀ l : List Char, splitOnChar sep l ≠ [] := by
  intro l
  cases l with
  | nil => simp [splitOnChar]
  | cons c cs =>
    simp only [splitOnChar]
    rcases h : splitOnChar sep cs with _ | ⟨p, ps⟩
    · simp
    · by_cases hc : c = sep <;> simp [hc]

theorem splitOnChar_of_not_mem (sep : Char) :
    ∀ l : List Char, sep ∉ l → splitOnChar sep l = [l] := by
  intro l
  induction l with
  | nil => intro _; rfl
  | cons c cs ih =>
    intro h
    have hc : c ≠ sep := fun hc => h (hc ▸ List.mem_cons_self _ _)
    have hcs : sep ∉ cs := fun hm => h (List.mem_cons_of_mem _ hm)
    simp only [splitOnChar, ih hcs]
    rw [if_neg (fun hh => hc hh)]

theorem splitOnChar_append (sep : Char) :
    ∀ xs ys : List Char, sep ∉ xs →
      splitOnChar sep (xs ++ sep :: ys) = xs :: splitOnChar sep ys := by
  intro xs
  induction xs with
  | nil =>
    intro ys _
    simp only [List.nil_append, splitOnChar]
    rcases h : splitOnChar sep ys with _ | ⟨p, ps⟩
    · exact absurd h (splitOnChar_ne_nil sep ys)
    · simp
  | cons x xs ih =>
    intro ys h
    have hx : x ≠ sep := fun hx => h (hx ▸ List.mem_cons_self _ _)
    have hxs : sep ∉ xs := fun hm => h (List.mem_cons_of_mem _ hm)
    rw [List.cons_append]
    simp only [splitOnChar]
    rw [ih ys hxs]
    show (if x = sep then [] :: xs :: splitOnChar sep ys
        else (x :: xs) :: splitOnChar sep ys) = (x :: xs) :: splitOnChar sep ys
    rw [if_neg hx]

theorem joinSep_cons_cons (sep : Char) (c : Char) (p : List Char) (ps : List (List Char)) :
    joinSep sep ((c :: p) :: ps) = c :: joinSep sep (p :: ps) := by
  cases ps <;> rfl

theorem joinSep_splitOnChar (sep : Char) :
    ∀ l : List Char, joinSep sep (splitOnChar sep l) = l := by
  intro l
  induction l with
  | nil => rfl
  | cons c cs ih =>
    simp only [splitOnChar]
    rcases h : splitOnChar sep cs with _ | ⟨p, ps⟩
    · exact absurd h (splitOnChar_ne_nil sep cs)
    · rw [h] at ih
      show joinSep sep (if c = sep then [] :: p :: ps else (c :: p) :: ps) = c :: cs
      by_cases hc : c = sep
      · rw [if_pos hc, hc]
        show sep :: joinSep sep (p :: ps) = sep :: cs
        rw [ih]
      · rw [if_neg hc, joinSep_cons_cons, ih]

theorem splitOnChar_joinSep (sep : Char) :
    ∀ parts : List (List Char), parts ≠ [] → (∀ p ∈ parts, sep ∉ p) →
      splitOnChar sep (joinSep sep parts) = parts := by
  intro parts
  induction parts with
  | nil => intro h _; exact absurd rfl h
  | cons p ps ih =>
    intro _ h
    cases ps with
    | nil =>
      show splitOnChar sep p = [p]
      exact splitOnChar_of_not_mem sep p (h p (List.mem_cons_self _ _))
    | cons q rest =>
      have hj : joinSep sep (p :: q :: rest) = p ++ sep :: joinSep sep (q :: rest) := rfl
      rw [hj, splitOnChar_append sep p _ (h p (List.mem_cons_self _ _)),
        ih (by simp) (fun r hr => h r (List.mem_cons_of_mem _ hr))]

theorem resolver_range_digits (ds es : List Char) (hds : ds ≠ []) (hes : es ≠ [])
    (h1 : ∀ c ∈ ds, isDigitC c = true) (h2 : ∀ c ∈ es, isDigitC c = true) :
    resolveTagIdsChars (ds ++ '-' :: es) =
      some (intRange (digitsVal ds) (digitsVal es)) := by
  have hnc : ',' ∉ ds ++ '-' :: es := by
    intro hm
    rcases List.mem_append.mp hm with hm | hm
    · exact absurd (h1 ',' hm) (by decide)
    · rcases List.mem_cons.mp hm with hm | hm
      · exact absurd hm (by decide)
      · exact absurd (h2 ',' hm) (by decide)
  have hd1 : '-' ∉ ds := fun hm => absurd (h1 '-' hm) (by decide)
  have hd2 : '-' ∉ es := fun hm => absurd (h2 '-' hm) (by decide)
  have hdm : '-' ∈ ds ++ '-' :: es := List.mem_append_right _ (List.mem_cons_self _ _)
  have hsplit : splitOnChar '-' (ds ++ '-' :: es) = [ds, es] := by
    rw [splitOnChar_append '-' ds es hd1, splitOnChar_of_not_mem '-' es hd2]
  unfold resolveTagIdsChars
  rw [if_neg hnc, if_pos hdm, hsplit]
  show (match pyIntChars ds with
    | none => none
    | some a =>
      match pyIntChars es with
      | none => none
      | some b => some (intRange a b)) = some (intRange (digitsVal ds) (digitsVal es))
  rw [pyIntChars_digits ds hds h1, pyIntChars_digits es hes h2]

theorem resolver_double_hyphen (ds es fs : List Char)
    (h1 : ∀ c ∈ ds, isDigitC c = true) (h2 : ∀ c ∈ es, isDigitC c = true)
    (h3 : ∀ c ∈ fs, isDigitC c = true) :
    resolveTagIdsChars (ds ++ '-' :: (es ++ '-' :: fs)) = none := by
  have hnc : ',' ∉ ds ++ '-' :: (es ++ '-' :: fs) := by
    intro hm
    rcases List.mem_append.mp hm with hm | hm
    · exact absurd (h1 ',' hm) (by decide)
    · rcases List.mem_cons.mp hm with hm | hm
      · exact absurd hm (by decide)
      · rcases List.mem_append.mp hm with hm | hm
        · exact absurd (h2 ',' hm) (by decide)
        · rcases List.mem_cons.mp hm with hm | hm
          · exact absurd hm (by decide)
          · exact absurd (h3 ',' hm) (by decide)
  have hd1 : '-' ∉ ds := fun hm => absurd (h1 '-' hm) (by decide)
  have hd2 : '-' ∉ es := fun hm => absurd (h2 '-' hm) (by decide)
  have hd3 : '-' ∉ fs := fun hm => absurd (h3 '-' hm) (by decide)
  have hdm : '-' ∈ ds ++ '-' :: (es ++ '-' :: fs) :=
    List.mem_append_right _ (List.mem_cons_self _ _)
  have hsplit : splitOnChar '-' (ds ++ '-' :: (es ++ '-' :: fs)) = [ds, es, fs] := by
    rw [splitOnChar_append '-' ds _ hd1, splitOnChar_append '-' es fs hd2,
      splitOnChar_of_not_mem '-' fs hd3]
  unfold resolveTagIdsChars
  rw [if_neg hnc, if_pos hdm, hsplit]

theorem resolver_comma_digits :
    ∀ parts : List (List Char), 2 ≤ parts.length →
      (∀ p ∈ parts, p ≠ [] ∧ ∀ c ∈ p, isDigitC c = true) →
      resolveTagIdsChars (joinSep ',' parts) =
        some (parts.map (fun p => ((digitsVal p : ℕ) : ℤ))) := by
  intro parts hlen h
  rcases parts with _ | ⟨p, _ | ⟨q, rest⟩⟩
  · simp at hlen
  · simp at hlen
  · have hj : joinSep ',' (p :: q :: rest) = p ++ ',' :: joinSep ',' (q :: rest) := rfl
    have hcm : ',' ∈ joinSep ',' (p :: q :: rest) := by
      rw [hj]; exact List.mem_append_right _ (List.mem_cons_self _ _)
    have hnone : ∀ r ∈ p :: q :: rest, ',' ∉ r :=
      fun r hr hm => absurd ((h r hr).2 ',' hm) (by decide)
    have hsplit : splitOnChar ',' (joinSep ',' (p :: q :: rest)) = p :: q :: rest :=
      splitOnChar_joinSep ',' _ (by simp) hnone
    unfold resolveTagIdsChars
    rw [if_pos hcm, hsplit]
    exact parseAll_some _ (fun r hr => pyIntChars_digits r (h r hr).1 (h r hr).2)

theorem intRange_empty_of_lt (a b : ℤ) (hab : b < a) : intRange a b = [] := by
  unfold intRange
  have h0 : (b + 1 - a).toNat = 0 := by omega
  rw [h0]
  rfl

/-! ## Claim theorems -/

/-- C1 (counterexample): on the id specification `"3--1"` the resolver as the
claim words it (split on the FIRST hyphen) yields the empty range `[]`, but
the code's resolver (`start, end = s.split('-')`, which requires the full
split to have exactly two parts) raises a fatal `ValueError` (modelled as
`none`), so the claim's description of the code is false at this input. -/
theorem resolver_first_hyphen_counterexample :
    resolveTagIdsClaimChars ['3', '-', '-', '1'] = some [] ∧
    resolveTagIdsChars ['3', '-', '-', '1'] = none ∧
    resolveTagIdsChars ['3', '-', '-', '1'] ≠ resolveTagIdsClaimChars ['3', '-', '-', '1'] := by
  refine ⟨by decide, by decide, by decide⟩

/-- C1 (amended): the resolver follows the spec grammar with the range branch
amended to "split on `'-'` into exactly two parts; more than one `'-'` is a
fatal parse error".  Conjuncts: the five examples of the claim; every
`digits-digits` specification resolves to the inclusive range of the two
values (hence `[]` when start > end, as `intRange_empty` states); a
specification with two hyphens between digit groups is a fatal error; every
comma-joined list of digit tokens resolves to the list of their values. -/
theorem resolver_grammar_amended :
    (resolveTagIdsChars ['3'] = some [3] ∧
     resolveTagIdsChars ['1', ',', '3', ',', '5'] = some [1, 3, 5] ∧
     resolveTagIdsChars ['2', '-', '4'] = some [2, 3, 4] ∧
     resolveTagIdsChars ['5', '-', '5'] = some [5] ∧
     resolveTagIdsChars ['5', '-', '3'] = some []) ∧
    (∀ ds es : List Char, ds ≠ [] → es ≠ [] →
      (∀ c ∈ ds, isDigitC c = true) → (∀ c ∈ es, isDigitC c = true) →
      resolveTagIdsChars (ds ++ '-' :: es) =
        some (intRange (digitsVal ds) (digitsVal es))) ∧
    (∀ a b : ℤ, b < a → intRange a b = []) ∧
    (∀ ds es fs : List Char,
      (∀ c ∈ ds, isDigitC c = true) → (∀ c ∈ es, isDigitC c = true) →
      (∀ c ∈ fs, isDigitC c = true) →
      resolveTagIdsChars (ds ++ '-' :: (es ++ '-' :: fs)) = none) ∧
    (∀ parts : List (List Char), 2 ≤ parts.length →
      (∀ p ∈ parts, p ≠ [] ∧ ∀ c ∈ p, isDigitC c = true) →
      resolveTagIdsChars (joinSep ',' parts) =
        some (parts.map (fun p => ((digitsVal p : ℕ) : ℤ)))) :=
  ⟨⟨by decide, by decide, by decide, by decide, by decide⟩,
    resolver_range_digits, intRange_empty_of_lt, resolver_double_hyphen,
    resolver_comma_digits⟩

/-- Witness for the amended resolver claim at concrete inputs. -/
theorem resolver_grammar_amended_witness :
    resolveTagIdsChars (['9'] ++ '-' :: ['2']) =
      some (intRange (digitsVal ['9']) (digitsVal ['2'])) ∧
    intRange 9 2 = [] ∧
    resolveTagIdsChars (joinSep ',' [['7'], ['8']]) =
      some ([['7'], ['8']].map (fun p => ((digitsVal p : ℕ) : ℤ))) :=
  ⟨resolver_grammar_amended.2.1 ['9'] ['2'] (by decide) (by decide) (by decide) (by decide),
    resolver_grammar_amended.2.2.1 9 2 (by decide),
    resolver_grammar_amended.2.2.2.2 [['7'], ['8']] (by decide) (by decide)⟩

/-- C2: the emitted document is the XML declaration plus a root SVG element
whose millimeter width/height and viewBox carry the same two computed numbers,
with `rows = ceil(count / columns)`, `width = (tag_size + 2*margin)*columns +
margin`, `height = (tag_size + 2*margin)*rows + margin`; for
`tag_size = 37.5`, `margin = 5`, `cols = 3` and one tag the canvas is
`147.5 x 52.5`. -/
theorem canvas_dimensions :
    (∀ (imgs : List (String × Raster)) (t m : ℚ) (c : ℕ),
      gen_apriltags_svg imgs t m c =
        svgHeader (svgWidth t m c) (svgHeight t m imgs.length c) ++
          svgBody imgs t m c ++ "</svg>\n") ∧
    (∀ (t m : ℚ) (c : ℕ), svgWidth t m c = (t + 2 * m) * (c : ℚ) + m) ∧
    (∀ (t m : ℚ) (n c : ℕ),
      svgHeight t m n c = (t + 2 * m) * ((tagRowsOf n c : ℤ) : ℚ) + m) ∧
    (∀ n c : ℕ, tagRowsOf n c = ⌈(n : ℚ) / (c : ℚ)⌉) ∧
    (∀ w h : ℚ, svgHeader w h =
      "<?xml version=\"1.0\" standalone=\"yes\"?>\n" ++ svgOpenTag w h) ∧
    (∀ w h : ℚ, svgOpenTag w h =
      "<svg width=\"" ++ ratRepr w ++ "mm\" height=\"" ++ ratRepr h ++
        "mm\" viewBox=\"0,0," ++ ratRepr w ++ "," ++ ratRepr h ++
        "\" xmlns=\"http://www.w3.org/2000/svg\">\n") ∧
    svgWidth 37.5 5 3 = 147.5 ∧ svgHeight 37.5 5 1 3 = 52.5 ∧ tagRowsOf 1 3 = 1 := by
  have hrows1 : tagRowsOf 1 3 = 1 := by
    unfold tagRowsOf
    push_cast
    rw [Int.ceil_eq_iff]
    norm_num
  refine ⟨fun _ _ _ _ => rfl, fun _ _ _ => rfl, fun _ _ _ _ => rfl, fun _ _ => rfl,
    fun _ _ => rfl, fun _ _ => rfl, by unfold svgWidth; push_cast; norm_num, ?_, hrows1⟩
  unfold svgHeight
  rw [hrows1]
  push_cast
  norm_num

/-- C3: the tag at 0-based index `i` is placed at `row = i div cols`,
`col = i mod cols`, with origins `col*(tag_size+2*margin)+margin` and
`row*(tag_size+2*margin)+margin`; the column is always below `cols` and
`(row, col)` determines `i`; with 3 columns, indexes 0, 3, 5 land at
(0,0), (1,0), (1,2). -/
theorem grid_placement : ∀ (i c : ℕ) (t m : ℚ), 1 ≤ c →
    tagRow i c = i / c ∧ tagCol i c = i % c ∧
    originX (tagCol i c) t m = ((i % c : ℕ) : ℚ) * (t + 2 * m) + m ∧
    originY (tagRow i c) t m = ((i / c : ℕ) : ℚ) * (t + 2 * m) + m ∧
    tagCol i c < c ∧ c * tagRow i c + tagCol i c = i ∧
    tagRow 0 3 = 0 ∧ tagCol 0 3 = 0 ∧ tagRow 3 3 = 1 ∧ tagCol 3 3 = 0 ∧
    tagRow 5 3 = 1 ∧ tagCol 5 3 = 2 := by
  intro i c t m hc
  exact ⟨rfl, rfl, rfl, rfl, Nat.mod_lt _ hc, Nat.div_add_mod i c,
    by decide, by decide, by decide, by decide, by decide, by decide⟩

/-- Witness for the grid placement claim at index 5 with 3 columns. -/
theorem grid_placement_witness :
    tagRow 5 3 = 5 / 3 ∧ tagCol 5 3 = 5 % 3 ∧
    originX (tagCol 5 3) 37.5 5 = ((5 % 3 : ℕ) : ℚ) * (37.5 + 2 * 5) + 5 ∧
    originY (tagRow 5 3) 37.5 5 = ((5 / 3 : ℕ) : ℚ) * (37.5 + 2 * 5) + 5 ∧
    tagCol 5 3 < 3 ∧ 3 * tagRow 5 3 + tagCol 5 3 = 5 ∧
    tagRow 0 3 = 0 ∧ tagCol 0 3 = 0 ∧ tagRow 3 3 = 1 ∧ tagCol 3 3 = 0 ∧
    tagRow 5 3 = 1 ∧ tagCol 5 3 = 2 :=
  grid_placement 5 3 37.5 5 (by decide)

/-- C8: an empty collection still yields a well-formed document, consisting of
the header and the closing tag only (no tag groups), with `rows = 0`,
`height = margin` and `width = (tag_size + 2*margin)*columns + margin`. -/
theorem empty_collection_svg : ∀ (t m : ℚ) (c : ℕ), 1 ≤ c →
    gen_apriltags_svg [] t m c = svgHeader (svgWidth t m c) m ++ "</svg>\n" ∧
    tagRowsOf 0 c = 0 ∧
    svgHeight t m 0 c = m ∧
    svgWidth t m c = (t + 2 * m) * (c : ℚ) + m ∧
    svgBody [] t m c = "" := by
  intro t m c _
  have hrows : tagRowsOf 0 c = 0 := by simp [tagRowsOf]
  have hh : svgHeight t m 0 c = m := by
    unfold svgHeight
    rw [hrows]
    push_cast
    ring
  refine ⟨?_, hrows, hh, rfl, rfl⟩
  unfold gen_apriltags_svg
  simp only [List.length_nil]
  have hb : svgBody ([] : List (String × Raster)) t m c = "" := rfl
  rw [hb, String.append_empty, hh]

/-- Witness for the empty-collection claim at the default parameters. -/
theorem empty_collection_svg_witness :
    gen_apriltags_svg [] 37.5 5 3 = svgHeader (svgWidth 37.5 5 3) 5 ++ "</svg>\n" ∧
    tagRowsOf 0 3 = 0 ∧
    svgHeight 37.5 5 0 3 = 5 ∧
    svgWidth 37.5 5 3 = (37.5 + 2 * 5) * (3 : ℚ) + 5 ∧
    svgBody [] 37.5 5 3 = "" :=
  empty_collection_svg 37.5 5 3 (by decide)

/-- C9: the emitter is a pure function of the collection (with its insertion
order) and the three numeric arguments, so two runs on equal inputs produce
equal — byte-identical — SVG strings. -/
theorem emitter_deterministic :
    ∀ (a b : List (String × Raster)) (t1 t2 m1 m2 : ℚ) (c1 c2 : ℕ),
      a = b → t1 = t2 → m1 = m2 → c1 = c2 →
      gen_apriltags_svg a t1 m1 c1 = gen_apriltags_svg b t2 m2 c2 ∧
      (gen_apriltags_svg a t1 m1 c1).data = (gen_apriltags_svg b t2 m2 c2).data := by
  intro a b t1 t2 m1 m2 c1 c2 ha ht hm hc
  subst ha
  subst ht
  subst hm
  subst hc
  exact ⟨rfl, rfl⟩

/-- Witness for determinism on a concrete one-tag collection. -/
theorem emitter_deterministic_witness :
    gen_apriltags_svg [("w", sampleRaster)] 37.5 5 3 =
      gen_apriltags_svg [("w", sampleRaster)] 37.5 5 3 ∧
    (gen_apriltags_svg [("w", sampleRaster)] 37.5 5 3).data =
      (gen_apriltags_svg [("w", sampleRaster)] 37.5 5 3).data :=
  emitter_deterministic _ _ _ _ _ _ _ _ rfl rfl rfl rfl

theorem flatMap_const_length {α : Type} (w : ℕ) (g : ℕ → List α)
    (hw : ∀ i, (g i).length = w) :
    ∀ h : ℕ, ((List.range h).flatMap g).length = h * w := by
  intro h
  induction h with
  | zero => simp
  | succ n ih =>
    rw [List.range_succ, List.flatMap_append, List.length_append, ih,
      List.flatMap_cons, List.flatMap_nil, List.append_nil, hw n]
    ring

theorem flatMap_grid_getElem {α : Type} (w : ℕ) (g : ℕ → List α)
    (hw : ∀ i, (g i).length = w) :
    ∀ h y x : ℕ, y < h → x < w →
      ((List.range h).flatMap g)[y * w + x]? = (g y)[x]? := by
  intro h
  induction h with
  | zero => intro y x hy _; exact absurd hy (Nat.not_lt_zero y)
  | succ n ih =>
    intro y x hy hx
    rw [List.range_succ, List.flatMap_append, List.flatMap_cons, List.flatMap_nil,
      List.append_nil, List.getElem?_append]
    rcases Nat.lt_or_ge y n with hyn | hyn
    · have hlt : y * w + x < ((List.range n).flatMap g).length := by
        rw [flatMap_const_length w g hw n]
        calc y * w + x < y * w + w := by omega
          _ = (y + 1) * w := by ring
          _ ≤ n * w := Nat.mul_le_mul_right w hyn
      rw [if_pos hlt]
      exact ih y x hyn hx
    · have hyeq : y = n := by omega
      subst hyeq
      have hge : ¬ (y * w + x < ((List.range y).flatMap g).length) := by
        rw [flatMap_const_length w g hw y]
        omega
      rw [if_neg hge, flatMap_const_length w g hw y]
      congr 1
      omega

theorem hexDigitChar_ok : ∀ n < 16, isHexLowerC (hexDigitChar n) = true := by decide

theorem rgbHex_parts (p : RGBA) :
    rgbHex p = "#" ++ hex2 p.r.val ++ hex2 p.g.val ++ hex2 p.b.val ∧
    (rgbHex p).length = 7 ∧
    ((rgbHex p).data.drop 1).all isHexLowerC = true := by
  have h16 : ∀ v : Fin 256, v.val / 16 < 16 :=
    fun v => Nat.div_lt_of_lt_mul (by have := v.isLt; omega)
  have hm16 : ∀ v : Fin 256, v.val % 16 < 16 := fun v => Nat.mod_lt _ (by norm_num)
  refine ⟨rfl, ?_, ?_⟩
  · unfold rgbHex
    rw [String.length_append, String.length_append, String.length_append]
    rfl
  · have hdata : (rgbHex p).data =
        '#' :: [hexDigitChar (p.r.val / 16), hexDigitChar (p.r.val % 16),
          hexDigitChar (p.g.val / 16), hexDigitChar (p.g.val % 16),
          hexDigitChar (p.b.val / 16), hexDigitChar (p.b.val % 16)] := by
      unfold rgbHex hex2
      rw [String.data_append, String.data_append, String.data_append]
      rfl
    rw [hdata]
    show List.all [hexDigitChar (p.r.val / 16), hexDigitChar (p.r.val % 16),
      hexDigitChar (p.g.val / 16), hexDigitChar (p.g.val % 16),
      hexDigitChar (p.b.val / 16), hexDigitChar (p.b.val % 16)] isHexLowerC = true
    simp [List.all_cons, hexDigitChar_ok _ (h16 p.r), hexDigitChar_ok _ (hm16 p.r),
      hexDigitChar_ok _ (h16 p.g), hexDigitChar_ok _ (hm16 p.g),
      hexDigitChar_ok _ (h16 p.b), hexDigitChar_ok _ (hm16 p.b)]

/-- C4: for every raster, the pixel loop emits exactly one rectangle per pixel
(`shape[0] * shape[1]` in total), in raster scan order (the rectangle of pixel
`(_x, _y)` sits at position `_y * shape[1] + _x`); a rectangle depends only on
the pixel's R, G, B channels — never on alpha — and its fill colour is `#`
followed by six lowercase hexadecimal digits encoding exactly those three
channels. -/
theorem pixel_rects_roundtrip :
    ∀ (name : String) (x y t : ℚ) (img : Raster), isRectImg img →
      (tagPixelRects name x y t img).length = shape0 img * shape1 img ∧
      (∀ _y _x : ℕ, _y < shape0 img → _x < shape1 img →
        (tagPixelRects name x y t img)[_y * shape1 img + _x]? =
          some (pixelRect name x y (pixWidthOf t img) (pixHeightOf t img)
            _x _y (getPix img _y _x))) ∧
      (∀ (pw ph : ℚ) (_x _y : ℕ) (p q : RGBA), p.r = q.r → p.g = q.g → p.b = q.b →
        pixelRect name x y pw ph _x _y p = pixelRect name x y pw ph _x _y q) ∧
      (∀ p : RGBA,
        rgbHex p = "#" ++ hex2 p.r.val ++ hex2 p.g.val ++ hex2 p.b.val ∧
        (rgbHex p).length = 7 ∧
        ((rgbHex p).data.drop 1).all isHexLowerC = true) := by
  intro name x y t img _
  have hw : ∀ i : ℕ, ((List.range (shape1 img)).map (fun _x =>
      pixelRect name x y (pixWidthOf t img) (pixHeightOf t img) _x i
        (getPix img i _x))).length = shape1 img := by
    intro i
    rw [List.length_map, List.length_range]
  refine ⟨?_, ?_, ?_, rgbHex_parts⟩
  · unfold tagPixelRects
    exact flatMap_const_length _ _ hw (shape0 img)
  · intro _y _x hy hx
    unfold tagPixelRects
    rw [flatMap_grid_getElem _ _ hw (shape0 img) _y _x hy hx,
      List.getElem?_map, List.getElem?_range hx]
    rfl
  · intro pw ph _x _y p q hr hg hb
    have hcol : rgbHex p = rgbHex q := by
      unfold rgbHex
      rw [hr, hg, hb]
    unfold pixelRect pixelRectTail
    rw [hcol]

/-- Witness for the pixel-rectangle claim on a concrete 1-by-2 raster whose
two pixels differ only in alpha. -/
theorem pixel_rects_roundtrip_witness :
    (tagPixelRects "w" 5 5 36 sampleRaster).length = shape0 sampleRaster * shape1 sampleRaster ∧
    (tagPixelRects "w" 5 5 36 sampleRaster)[0 * shape1 sampleRaster + 1]? =
      some (pixelRect "w" 5 5 (pixWidthOf 36 sampleRaster) (pixHeightOf 36 sampleRaster)
        1 0 (getPix sampleRaster 0 1)) ∧
    pixelRect "w" 5 5 1 1 0 0 samplePixel = pixelRect "w" 5 5 1 1 0 0 samplePixel2 ∧
    (rgbHex samplePixel).length = 7 := by
  have h := pixel_rects_roundtrip "w" 5 5 36 sampleRaster (by decide)
  exact ⟨h.1, h.2.1 0 1 (by decide) (by decide),
    h.2.2.1 1 1 0 0 samplePixel samplePixel2 (by decide) (by decide) (by decide),
    (h.2.2.2 samplePixel).2.1⟩

/-- C6: the per-pixel scale factors pair `tag_size` with the raster's first
axis for the rectangle height and its second axis for the rectangle width
(`pix_height = tag_size / shape[0]`, `pix_width = tag_size / shape[1]`), and
every emitted pixel rectangle opens with exactly these width and height
attribute values. -/
theorem pixel_scale_axis_pairing :
    ∀ (name : String) (x y t : ℚ) (img : Raster) (r : String),
      r ∈ tagPixelRects name x y t img →
      pixHeightOf t img = t / (shape0 img : ℚ) ∧
      pixWidthOf t img = t / (shape1 img : ℚ) ∧
      (∃ rest, r = rectHead (pixWidthOf t img) (pixHeightOf t img) ++ rest) ∧
      rectHead (pixWidthOf t img) (pixHeightOf t img) =
        "\t<rect width=\"" ++ ratRepr (pixWidthOf t img) ++ "\" height=\"" ++
          ratRepr (pixHeightOf t img) ++ "\" x=\"" := by
  intro name x y t img r hr
  refine ⟨rfl, rfl, ?_, rfl⟩
  rcases List.mem_flatMap.mp hr with ⟨_y, _, hx⟩
  rcases List.mem_map.mp hx with ⟨_x, _, hpx⟩
  refine ⟨pixelRectTail name x y (pixWidthOf t img) (pixHeightOf t img) _x _y
    (getPix img _y _x), ?_⟩
  rw [← hpx]
  rfl

/-- Witness for the axis-pairing claim on a concrete raster. -/
theorem pixel_scale_axis_pairing_witness :
    (pixelRect "w" 5 5 (pixWidthOf 36 sampleRaster) (pixHeightOf 36 sampleRaster) 0 0
        (getPix sampleRaster 0 0) ∈ tagPixelRects "w" 5 5 36 sampleRaster) ∧
    pixHeightOf 36 sampleRaster = 36 / (shape0 sampleRaster : ℚ) ∧
    pixWidthOf 36 sampleRaster = 36 / (shape1 sampleRaster : ℚ) ∧
    (∃ rest, pixelRect "w" 5 5 (pixWidthOf 36 sampleRaster) (pixHeightOf 36 sampleRaster)
        0 0 (getPix sampleRaster 0 0) =
      rectHead (pixWidthOf 36 sampleRaster) (pixHeightOf 36 sampleRaster) ++ rest) := by
  have hmem : pixelRect "w" 5 5 (pixWidthOf 36 sampleRaster) (pixHeightOf 36 sampleRaster) 0 0
      (getPix sampleRaster 0 0) ∈ tagPixelRects "w" 5 5 36 sampleRaster :=
    List.mem_cons_self _ _
  have h := pixel_scale_axis_pairing "w" 5 5 36 sampleRaster _ hmem
  exact ⟨hmem, h.1, h.2.1, h.2.2.1⟩

theorem splitOnChar_length_two (sep : Char) :
    ∀ l : List Char, sep ∈ l → 2 ≤ (splitOnChar sep l).length := by
  intro l
  induction l with
  | nil => intro h; exact absurd h (List.not_mem_nil sep)
  | cons c cs ih =>
    intro h
    simp only [splitOnChar]
    rcases hsp : splitOnChar sep cs with _ | ⟨p, ps⟩
    · exact absurd hsp (splitOnChar_ne_nil sep cs)
    · show 2 ≤ (if c = sep then [] :: p :: ps else (c :: p) :: ps).length
      by_cases hc : c = sep
      · rw [if_pos hc]
        simp
      · rw [if_neg hc]
        have hmem : sep ∈ cs := by
          rcases List.mem_cons.mp h with h1 | h1
          · exact absurd h1.symm hc
          · exact h1
        have := ih hmem
        rw [hsp] at this
        simp only [List.length_cons] at this ⊢
        omega

theorem splitFirstChar_of_splitOnChar (sep : Char) :
    ∀ (l : List Char) (p : List Char) (ps : List (List Char)),
      splitOnChar sep l = p :: ps → splitFirstChar sep l = (p, joinSep sep ps) := by
  intro l
  induction l with
  | nil =>
    intro p ps h
    simp only [splitOnChar] at h
    injection h with h1 h2
    subst h1
    subst h2
    rfl
  | cons c cs ih =>
    intro p ps h
    simp only [splitOnChar] at h
    rcases hsp : splitOnChar sep cs with _ | ⟨q, qs⟩
    · exact absurd hsp (splitOnChar_ne_nil sep cs)
    · rw [hsp] at h
      change (if c = sep then [] :: q :: qs else (c :: q) :: qs) = p :: ps at h
      by_cases hc : c = sep
      · rw [if_pos hc] at h
        injection h with h1 h2
        subst h1
        subst h2
        show splitFirstChar sep (c :: cs) = ([], joinSep sep (q :: qs))
        unfold splitFirstChar
        rw [if_pos hc]
        have hjoin := joinSep_splitOnChar sep cs
        rw [hsp] at hjoin
        rw [hjoin]
      · rw [if_neg hc] at h
        injection h with h1 h2
        subst h2
        subst h1
        unfold splitFirstChar
        rw [if_neg hc, ih q qs hsp]

/-- C7: an id specification containing a token that does not parse as an
integer makes resolution a fatal `ValueError`: the run terminates before any
work, and the returned write set is empty (the output file is never touched —
in this embedding a run's only filesystem effect is the write list of an `ok`
result, and an error result carries none). -/
theorem malformed_spec_fatal :
    ∀ (tagAll : List (List Char)) (fe : List Char → Bool) (de : List Char → Option Raster)
      (spec : List Char) (t m : ℚ) (c : ℕ) (out : String),
      (∃ tok ∈ tokensOfSpec spec, pyIntChars tok = none) →
      resolveTagIdsChars spec = none ∧
      pyMainChars tagAll fe de spec t m c out = .error .valueError := by
  intro tagAll fe de spec t m c out hbad
  have hres : resolveTagIdsChars spec = none := by
    obtain ⟨tok, htok, hparse⟩ := hbad
    unfold tokensOfSpec at htok
    unfold resolveTagIdsChars
    by_cases hc1 : ',' ∈ spec
    · rw [if_pos hc1] at htok ⊢
      exact parseAll_none _ htok hparse
    · rw [if_neg hc1] at htok ⊢
      by_cases hc2 : '-' ∈ spec
      · rw [if_pos hc2] at htok ⊢
        rcases hsp : splitOnChar '-' spec with _ | ⟨p, ps⟩
        · exact absurd hsp (splitOnChar_ne_nil '-' spec)
        · have hlen : 2 ≤ (splitOnChar '-' spec).length := splitOnChar_length_two '-' spec hc2
          rw [hsp] at hlen
          rcases ps with _ | ⟨q, qs⟩
          · simp at hlen
          · rcases qs with _ | ⟨r, rs⟩
            · have hsf : splitFirstChar '-' spec = (p, joinSep '-' [q]) :=
                splitFirstChar_of_splitOnChar '-' spec p [q] hsp
              have hq : joinSep '-' [q] = q := rfl
              rw [hq] at hsf
              show (match pyIntChars p with
                | none => none
                | some a =>
                  match pyIntChars q with
                  | none => none
                  | some b => some (intRange a b)) = none
              simp only [hsf] at htok
              rcases List.mem_cons.mp htok with h1 | h1
              · rw [h1] at hparse
                rw [hparse]
              · have h2 : tok = q := by simpa using h1
                rw [h2] at hparse
                rw [hparse]
                rcases pyIntChars p with _ | a <;> rfl
            · rfl
      · rw [if_neg hc2] at htok ⊢
        have h1 : tok = spec := by simpa using htok
        rw [h1] at hparse
        rw [hparse]
        rfl
  refine ⟨hres, ?_⟩
  unfold pyMainChars
  rw [hres]

/-- Witness for the malformed-specification claim on the input `"x"`. -/
theorem malformed_spec_fatal_witness :
    (∃ tok ∈ tokensOfSpec ['x'], pyIntChars tok = none) ∧
    resolveTagIdsChars ['x'] = none ∧
    pyMainChars [cexFile] (fun _ => true) (fun _ => some cexRaster) ['x'] 37.5 5 3
      "output.svg" = .error .valueError :=
  ⟨by decide,
    malformed_spec_fatal [cexFile] (fun _ => true) (fun _ => some cexRaster) ['x'] 37.5 5 3
      "output.svg" (by decide)⟩

theorem buildTagImages_error_decode (tagAll : List (List Char)) (fe : List Char → Bool)
    (de : List Char → Option Raster) :
    ∀ (ids : List ℤ) (dict : List (String × Raster)) (e : PyError),
      buildTagImages tagAll fe de dict ids = .error e → e = .decodeError := by
  intro ids
  induction ids with
  | nil =>
    intro dict e h
    exact Except.noConfusion h
  | cons id rest ih =>
    intro dict e h
    unfold buildTagImages at h
    split at h
    · exact ih dict e h
    · split at h
      · exact ih dict e h
      · split at h
        · injection h with h1
          exact h1.symm
        · exact ih _ e h

/-- C10: the generator always returns a string, so the `assert` on line 143
can never fire: for every environment and argument set (with at least one
column), the run's result is never an assertion failure — the failure branch
of the assert is unreachable. -/
theorem assertion_unreachable :
    ∀ (tagAll : List (List Char)) (fe : List Char → Bool) (de : List Char → Option Raster)
      (spec : List Char) (t m : ℚ) (c : ℕ) (out : String), 1 ≤ c →
      isAssertionError (pyMainChars tagAll fe de spec t m c out) = false := by
  intro tagAll fe de spec t m c out _
  unfold pyMainChars
  split
  · rfl
  · split
    · next e heq =>
      have he := buildTagImages_error_decode tagAll fe de _ [] e heq
      subst he
      rfl
    · rfl

/-- Witness for the unreachable-assertion claim on a concrete run. -/
theorem assertion_unreachable_witness :
    isAssertionError (pyMainChars [cexFile] (fun _ => true) (fun _ => some cexRaster)
      ['3'] 37.5 5 3 "output.svg") = false :=
  assertion_unreachable [cexFile] (fun _ => true) (fun _ => some cexRaster)
    ['3'] 37.5 5 3 "output.svg" (by decide)

theorem buildTagImages_cons_missing (tagAll : List (List Char)) (fe : List Char → Bool)
    (de : List Char → Option Raster) (dict : List (String × Raster)) (id : ℤ) (rest : List ℤ)
    (hm : matchesFor tagAll id = []) :
    buildTagImages tagAll fe de dict (id :: rest) = buildTagImages tagAll fe de dict rest := by
  conv_lhs => unfold buildTagImages
  rw [hm]

theorem buildTagImages_cons_found (tagAll : List (List Char)) (fe : List Char → Bool)
    (de : List Char → Option Raster) (dict : List (String × Raster)) (id : ℤ) (rest : List ℤ)
    (f : List Char) (fs : List (List Char)) (img : Raster)
    (hm : matchesFor tagAll id = f :: fs) (hfe : fe f = true) (hde : de f = some img) :
    buildTagImages tagAll fe de dict (id :: rest) =
      buildTagImages tagAll fe de (dictInsert (tagNameOf f) img dict) rest := by
  conv_lhs => unfold buildTagImages
  rw [hm]
  show (if fe f = false then buildTagImages tagAll fe de dict rest
      else
        match de f with
        | none => Except.error PyError.decodeError
        | some img => buildTagImages tagAll fe de (dictInsert (tagNameOf f) img dict) rest) =
    buildTagImages tagAll fe de (dictInsert (tagNameOf f) img dict) rest
  rw [if_neg (by simp [hfe]), hde]

theorem foundIds_cons_missing (tagAll : List (List Char)) (id : ℤ) (rest : List ℤ)
    (hm : matchesFor tagAll id = []) :
    foundIds tagAll (id :: rest) = foundIds tagAll rest := by
  simp [foundIds, List.filter_cons, hm]

theorem foundIds_cons_found (tagAll : List (List Char)) (id : ℤ) (rest : List ℤ)
    (f : List Char) (fs : List (List Char)) (hm : matchesFor tagAll id = f :: fs) :
    foundIds tagAll (id :: rest) = id :: foundIds tagAll rest := by
  simp [foundIds, List.filter_cons, hm]

theorem missing_plus_found (tagAll : List (List Char)) :
    ∀ ids : List ℤ, missingCount tagAll ids + (foundIds tagAll ids).length = ids.length := by
  intro ids
  induction ids with
  | nil => rfl
  | cons id rest ih =>
    by_cases hp : (matchesFor tagAll id).isEmpty = true
    · have h1 : missingCount tagAll (id :: rest) = missingCount tagAll rest + 1 := by
        simp [missingCount, List.filter_cons, hp]
      have h2 : foundIds tagAll (id :: rest) = foundIds tagAll rest := by
        simp [foundIds, List.filter_cons, hp]
      rw [h1, h2, List.length_cons]
      omega
    · have hp' : (matchesFor tagAll id).isEmpty = false := by
        revert hp
        cases (matchesFor tagAll id).isEmpty <;> simp
      have h1 : missingCount tagAll (id :: rest) = missingCount tagAll rest := by
        simp [missingCount, List.filter_cons, hp']
      have h2 : (foundIds tagAll (id :: rest)).length = (foundIds tagAll rest).length + 1 := by
        simp [foundIds, List.filter_cons, hp']
      rw [h1, h2, List.length_cons]
      omega

theorem dictInsert_length_of_not_mem (k : String) (v : Raster) :
    ∀ d : List (String × Raster), k ∉ d.map Prod.fst →
      (dictInsert k v d).length = d.length + 1 := by
  intro d
  induction d with
  | nil => intro _; rfl
  | cons kv rest ih =>
    intro h
    obtain ⟨k', v'⟩ := kv
    have hk : k' ≠ k := fun he => h (by simp [List.map_cons, he])
    show (if k' = k then (k', v) :: rest else (k', v') :: dictInsert k v rest).length =
      ((k', v') :: rest).length + 1
    rw [if_neg hk]
    simp only [List.length_cons, ih (fun hm => h (List.mem_cons_of_mem _ hm))]

theorem dictInsert_keys_of_not_mem (k : String) (v : Raster) :
    ∀ d : List (String × Raster), k ∉ d.map Prod.fst →
      (dictInsert k v d).map Prod.fst = d.map Prod.fst ++ [k] := by
  intro d
  induction d with
  | nil => intro _; rfl
  | cons kv rest ih =>
    intro h
    obtain ⟨k', v'⟩ := kv
    have hk : k' ≠ k := fun he => h (by simp [List.map_cons, he])
    show (if k' = k then (k', v) :: rest else (k', v') :: dictInsert k v rest).map Prod.fst =
      ((k', v') :: rest).map Prod.fst ++ [k]
    rw [if_neg hk]
    simp only [List.map_cons, ih (fun hm => h (List.mem_cons_of_mem _ hm)), List.cons_append]

theorem buildTagImages_ok (tagAll : List (List Char)) (fe : List Char → Bool)
    (de : List Char → Option Raster)
    (hfe : ∀ f ∈ tagAll, fe f = true) (hde : ∀ f, (de f).isSome = true) :
    ∀ (ids : List ℤ) (dict : List (String × Raster)),
      (dict.map Prod.fst ++ (foundIds tagAll ids).map (foundName tagAll)).Nodup →
      ∃ d, buildTagImages tagAll fe de dict ids = .ok d ∧
        d.length = dict.length + (foundIds tagAll ids).length := by
  intro ids
  induction ids with
  | nil =>
    intro dict _
    exact ⟨dict, rfl, by simp [foundIds]⟩
  | cons id rest ih =>
    intro dict hnd
    rcases hm : matchesFor tagAll id with _ | ⟨f, fs⟩
    · rw [buildTagImages_cons_missing tagAll fe de dict id rest hm]
      rw [foundIds_cons_missing tagAll id rest hm] at hnd ⊢
      exact ih dict hnd
    · have hfmem : f ∈ tagAll := by
        have hmem : f ∈ matchesFor tagAll id := by
          rw [hm]
          exact List.mem_cons_self _ _
        exact (List.mem_filter.mp hmem).1
      have hfeq : fe f = true := hfe f hfmem
      rcases hdef : de f with _ | img
      · have := hde f
        rw [hdef] at this
        exact absurd this (by simp)
      · rw [buildTagImages_cons_found tagAll fe de dict id rest f fs img hm hfeq hdef]
        have hname : foundName tagAll id = tagNameOf f := by
          unfold foundName
          rw [hm]
          rfl
        rw [foundIds_cons_found tagAll id rest f fs hm] at hnd ⊢
        rw [List.map_cons, hname] at hnd
        have hknotin : tagNameOf f ∉ dict.map Prod.fst := by
          intro hmem
          rcases List.nodup_append.mp hnd with ⟨_, _, hdisj⟩
          exact hdisj hmem (List.mem_cons_self _ _)
        have hnd' : ((dictInsert (tagNameOf f) img dict).map Prod.fst ++
            (foundIds tagAll rest).map (foundName tagAll)).Nodup := by
          rw [dictInsert_keys_of_not_mem _ _ dict hknotin, List.append_assoc]
          exact hnd
        obtain ⟨d, hd, hlen⟩ := ih (dictInsert (tagNameOf f) img dict) hnd'
        refine ⟨d, hd, ?_⟩
        rw [hlen, dictInsert_length_of_not_mem _ _ dict hknotin]
        simp only [List.length_cons]
        omega

/-- C5 (counterexample): with the single file `a_00003.png` present and the id
specification `"3,3"` (two requested ids, zero missing), the resulting
collection has one entry, not `2 - 0 = 2`: duplicate requested ids collapse
onto one dictionary key, so "size = requested count minus missing count" fails
as stated. -/
theorem missing_ids_counterexample :
    resolveTagIdsChars ['3', ',', '3'] = some [3, 3] ∧
    builtSize (buildTagImages [cexFile] (fun _ => true) (fun _ => some cexRaster) [] [3, 3]) = 1 ∧
    missingCount [cexFile] [3, 3] = 0 ∧
    builtSize (buildTagImages [cexFile] (fun _ => true) (fun _ => some cexRaster) [] [3, 3]) ≠
      ([3, 3] : List ℤ).length - missingCount [cexFile] [3, 3] :=
  ⟨by decide, by decide, by decide, by decide⟩

/-- C5 (amended): ids with no matching file are skipped with a warning and the
run continues; PROVIDED the display names derived for the found ids are
pairwise distinct (in particular the requested ids are distinct), the
resulting collection size equals the requested count minus the missing count,
and the run still completes, writing the SVG generated from the remaining
tags.  (Duplicate requested ids — or distinct ids whose derived names collide
— overwrite a single dictionary entry and make the collection smaller, as the
counterexample shows.) -/
theorem missing_ids_amended :
    ∀ (tagAll : List (List Char)) (fe : List Char → Bool) (de : List Char → Option Raster)
      (ids : List ℤ),
      (∀ f ∈ tagAll, fe f = true) →
      (∀ f, (de f).isSome = true) →
      ((foundIds tagAll ids).map (foundName tagAll)).Nodup →
      ∃ dict, buildTagImages tagAll fe de [] ids = .ok dict ∧
        dict.length = ids.length - missingCount tagAll ids ∧
        missingCount tagAll ids + (foundIds tagAll ids).length = ids.length ∧
        (∀ (t m : ℚ) (c : ℕ) (out : String) (spec : List Char),
          resolveTagIdsChars spec = some ids →
          pyMainChars tagAll fe de spec t m c out =
            .ok [(out, gen_apriltags_svg dict t m c)]) := by
  intro tagAll fe de ids hfe hde hnd
  have hcount := missing_plus_found tagAll ids
  obtain ⟨dict, hd, hlen⟩ := buildTagImages_ok tagAll fe de hfe hde ids [] hnd
  refine ⟨dict, hd, by simp at hlen; omega, hcount, ?_⟩
  intro t m c out spec hspec
  unfold pyMainChars
  rw [hspec]
  show (match buildTagImages tagAll fe de [] ids with
    | Except.error e => Except.error e
    | Except.ok tag_images =>
      let apriltags_svg : Option String := some (gen_apriltags_svg tag_images t m c)
      match apriltags_svg with
      | none => Except.error PyError.assertionError
      | some svg => Except.ok [(out, svg)]) =
    Except.ok [(out, gen_apriltags_svg dict t m c)]
  rw [hd]

/-- Witness for the amended missing-ids claim: files for ids 1 and 2 exist,
id 3 is missing, so the collection has `3 - 1 = 2` entries and the run still
writes the generated SVG. -/
theorem missing_ids_amended_witness :
    (∀ f ∈ [wFileA, wFileB], (fun _ => true : List Char → Bool) f = true) ∧
    ((foundIds [wFileA, wFileB] [1, 2, 3]).map (foundName [wFileA, wFileB])).Nodup ∧
    (∃ dict, buildTagImages [wFileA, wFileB] (fun _ => true) (fun _ => some cexRaster)
        [] [1, 2, 3] = .ok dict ∧
      dict.length = ([1, 2, 3] : List ℤ).length - missingCount [wFileA, wFileB] [1, 2, 3] ∧
      missingCount [wFileA, wFileB] [1, 2, 3] +
        (foundIds [wFileA, wFileB] [1, 2, 3]).length = ([1, 2, 3] : List ℤ).length ∧
      (∀ (t m : ℚ) (c : ℕ) (out : String) (spec : List Char),
        resolveTagIdsChars spec = some [1, 2, 3] →
        pyMainChars [wFileA, wFileB] (fun _ => true) (fun _ => some cexRaster) spec t m c out =
          .ok [(out, gen_apriltags_svg dict t m c)])) :=
  ⟨by decide, by decide,
    missing_ids_amended [wFileA, wFileB] (fun _ => true) (fun _ => some cexRaster) [1, 2, 3]
      (by decide) (fun _ => rfl) (by decide)⟩
